import Mathlib

/-!
# Verification of the receipt-ocr post-processing core

A shallow embedding of the post-processing pipeline of `cosplit-now/receipt-ocr`:
the response parser (`src/processors/parser.ts`), the attachment merger
(`mergeAttachments` in the same file) and the verification orchestrator plus
public projection (`src/extract.ts`).

Modelling conventions:
* JSON values produced by the host's `JSON.parse` are an inductive `Json` type
  over exact rationals (JSON numbers); the external `JSON.parse ∘ extractJson`
  step is abstracted as an `Except String Json` parameter (its error message is
  the host's), since it is a platform builtin, not repository code.
* JavaScript `undefined` / an absent object key are both `Option.none`; record
  spread / destructuring are value copies, which is the native semantics of
  Lean structures.
* The two external verification collaborators (the batch verifier of
  `adapters/verifier.ts` and the caller-supplied callback) are abstracted as
  outcome-valued parameters: the batch pass either yields a name-keyed lookup
  or raises, a callback invocation either yields an optional result or raises.
* The callback pass is instrumented with an invocation log recording, for each
  callback invocation, the item index, the name passed, and the
  `VerificationContext` built for it.
-/

namespace ReceiptOcr

/-- JSON values as returned by the host's `JSON.parse` (numbers as exact
rationals; object keys already deduplicated by the host parser). -/
inductive Json where
  | null
  | bool (b : Bool)
  | num (q : ℚ)
  | str (s : String)
  | arr (elems : List Json)
  | obj (fields : List (String × Json))

/-- Property lookup on a list of object fields. -/
def lookupField : List (String × Json) → String → Option Json
  | [], _ => none
  | (k, v) :: rest, key => if k = key then some v else lookupField rest key

/-- JavaScript property access `x.key`: a value on objects, `undefined`
(`none`) on every other JSON value. -/
def Json.getField : Json → String → Option Json
  | .obj fields, key => lookupField fields key
  | _, _ => none

/-- JavaScript truthiness of an optional JSON value, as used by
`Boolean(raw.needsVerification)`: `undefined`, `null`, `false`, `0` and the
empty string are falsy; everything else is truthy. -/
def jsTruthy : Option Json → Bool
  | none => false
  | some .null => false
  | some (.bool b) => b
  | some (.num q) => decide (q ≠ 0)
  | some (.str s) => decide (s ≠ "")
  | some (.arr _) => true
  | some (.obj _) => true

/-- `RawReceiptItem` of `src/processors/parser.ts`: the normalized item shape,
including the transient attachment-marker fields.  `isAttachment` is
`some true` or `none` after normalization, but the merger is defined over the
full `Option Bool` so that arbitrary well-typed inputs are covered.
`attachmentType` keeps string values only: a non-string runtime value compares
unequal to both `"deposit"` and `"discount"` and is stripped before output, so
it is observationally `none` everywhere in the repository. -/
structure RawReceiptItem where
  name : String
  price : ℚ
  quantity : ℚ
  needsVerification : Bool
  hasTax : Bool
  taxAmount : Option ℚ
  deposit : Option ℚ
  discount : Option ℚ
  isAttachment : Option Bool
  attachmentType : Option String
  attachedTo : Option ℚ
deriving Repr, DecidableEq

/-- `normalizeRawItem` of `src/processors/parser.ts`: validates `name` and
`price`, defaults `quantity`, coerces the booleans with `Boolean(...)`, keeps
the optional numeric fields only when numeric, and preserves the transient
attachment markers. -/
def normalizeRawItemE (raw : Json) : Except String RawReceiptItem :=
  match raw with
  | .obj _ | .arr _ =>
    match raw.getField "name" with
    | some (.str nm) =>
      if nm = "" then .error "Invalid item: missing or invalid name field"
      else
        match raw.getField "price" with
        | some (.num p) =>
          if p < 0 then .error "Invalid item: missing or invalid price field"
          else .ok {
            name := nm
            price := p
            quantity := match raw.getField "quantity" with
              | some (.num q) => q
              | _ => 1
            needsVerification := jsTruthy (raw.getField "needsVerification")
            hasTax := jsTruthy (raw.getField "hasTax")
            taxAmount := match raw.getField "taxAmount" with
              | some (.num t) => some t
              | _ => none
            deposit := match raw.getField "deposit" with
              | some (.num d) => some d
              | _ => none
            discount := match raw.getField "discount" with
              | some (.num d) => some d
              | _ => none
            isAttachment := match raw.getField "isAttachment" with
              | some (.bool true) => some true
              | _ => none
            attachmentType := match raw.getField "attachmentType" with
              | some (.str s) => some s
              | _ => none
            attachedTo := match raw.getField "attachedTo" with
              | some (.num n) => some n
              | _ => none }
        | _ => .error "Invalid item: missing or invalid price field"
    | _ => .error "Invalid item: missing or invalid name field"
  | _ => .error "Invalid item: not an object"

/-- JavaScript truthiness of the `isAttachment` marker (`!item.isAttachment`
in the merger loop). -/
def attachmentFlag (it : RawReceiptItem) : Bool :=
  it.isAttachment.getD false

/-- Folding one attachment record into the current substantive item:
a `deposit` adds `price × quantity` (absent deposit read as 0 via `|| 0`),
a `discount` subtracts `price` alone, any other attachment type is ignored. -/
def applyAttachment (cur att : RawReceiptItem) : RawReceiptItem :=
  if att.attachmentType = some "deposit" then
    { cur with deposit := some (cur.deposit.getD 0 + att.price * att.quantity) }
  else if att.attachmentType = some "discount" then
    { cur with discount := some (cur.discount.getD 0 - att.price) }
  else cur

/-- The scan loop of `mergeAttachments`: `cur` is the open current substantive
item (`currentItem` in the source, `none` when no item is open yet). -/
def mergeLoop (cur : Option RawReceiptItem) : List RawReceiptItem → List RawReceiptItem
  | [] => cur.toList
  | it :: rest =>
    if attachmentFlag it then
      match cur with
      | some c => mergeLoop (some (applyAttachment c it)) rest
      | none => mergeLoop none rest
    else
      match cur with
      | some c => c :: mergeLoop (some it) rest
      | none => mergeLoop (some it) rest

/-- The final `result.map` of `mergeAttachments`: drop the transient
attachment-only fields. -/
def stripTransient (it : RawReceiptItem) : RawReceiptItem :=
  { it with isAttachment := none, attachmentType := none, attachedTo := none }

/-- `mergeAttachments` of `src/processors/parser.ts`. -/
def mergeAttachments (items : List RawReceiptItem) : List RawReceiptItem :=
  (mergeLoop none items).map stripTransient

/-- `ParsedReceiptData` of `src/processors/parser.ts`. -/
structure ParsedReceiptData where
  items : List RawReceiptItem
  total : ℚ
deriving Repr, DecidableEq

/-- The error wrapper of `parseResponse`'s catch-all: prefixes the inner
message and appends the original raw response text. -/
def mkParseError (responseText msg : String) : String :=
  "Failed to parse LLM response: " ++ msg ++ "\n\nResponse:\n" ++ responseText

/-- `parsed.items.map((raw, index) => ...)` with its per-index error wrapping:
normalization stops at the first invalid item and reports its index. -/
def normalizeItems : List Json → Nat → Except String (List RawReceiptItem)
  | [], _ => .ok []
  | j :: rest, i =>
    match normalizeRawItemE j with
    | .error m => .error ("Invalid item at index " ++ toString i ++ ": " ++ m)
    | .ok it =>
      match normalizeItems rest (i + 1) with
      | .error e => .error e
      | .ok its => .ok (it :: its)

/-- JavaScript `parsed && typeof parsed === 'object'` over JSON values:
true exactly for objects and arrays. -/
def objectLike : Json → Bool
  | .obj _ => true
  | .arr _ => true
  | _ => false

/-- The body of `parseResponse`'s `try` block, starting after `JSON.parse`
(whose outcome is the `parsed` argument): shape validation, per-item
normalization, attachment merging. -/
def parseResponseCore (parsed : Except String Json) : Except String ParsedReceiptData :=
  match parsed with
  | .error m => .error m
  | .ok p =>
    if objectLike p then
      match p.getField "items" with
      | some (.arr rawItems) =>
        match p.getField "total" with
        | some (.num t) =>
          if t < 0 then .error "Response.total is missing or invalid"
          else
            match normalizeItems rawItems 0 with
            | .error e => .error e
            | .ok its => .ok { items := mergeAttachments its, total := t }
        | _ => .error "Response.total is missing or invalid"
      | _ => .error "Response.items is not an array"
    else .error "Response is not an object"

/-- `parseResponse` of `src/processors/parser.ts`: the core plus the catch-all
that wraps every failure message together with the raw response text. -/
def parseResponseE (responseText : String) (parsed : Except String Json) :
    Except String ParsedReceiptData :=
  match parseResponseCore parsed with
  | .ok pd => .ok pd
  | .error m => .error (mkParseError responseText m)

/-- `ReceiptItem` of `src/types.ts`: the public item shape, without
`needsVerification` and without the transient attachment fields. -/
structure ReceiptItem where
  name : String
  price : ℚ
  quantity : ℚ
  hasTax : Bool
  taxAmount : Option ℚ
  deposit : Option ℚ
  discount : Option ℚ
deriving Repr, DecidableEq

/-- The public projection `({ needsVerification, ...item }) => ({ ...item })`
of `src/extract.ts` (a fresh field-by-field copy; value semantics). -/
def toPublic (it : RawReceiptItem) : ReceiptItem :=
  { name := it.name
    price := it.price
    quantity := it.quantity
    hasTax := it.hasTax
    taxAmount := it.taxAmount
    deposit := it.deposit
    discount := it.discount }

/-- Rebuilding an internal item from a public one plus a
`needsVerification` flag (the public form is the internal form minus that
flag once the transient attachment fields are gone). -/
def publicToInternal (p : ReceiptItem) (needsVerification : Bool) : RawReceiptItem :=
  { name := p.name
    price := p.price
    quantity := p.quantity
    needsVerification := needsVerification
    hasTax := p.hasTax
    taxAmount := p.taxAmount
    deposit := p.deposit
    discount := p.discount
    isAttachment := none
    attachmentType := none
    attachedTo := none }

/-- `VerificationContext` of `src/types.ts`. -/
structure VerificationContext where
  rawText : String
  allItems : List ReceiptItem
deriving Repr, DecidableEq

/-- `VerificationResult` of `src/types.ts`. -/
structure VerificationResult where
  verifiedName : String
deriving Repr, DecidableEq

/-- One callback invocation's outcome: a value (possibly `null`) or a raised
error (which the orchestrator catches per item). -/
inductive CbOutcome where
  | ok (result : Option VerificationResult)
  | err
deriving Repr, DecidableEq

/-- The batch verifier's outcome for one extraction call: a name-keyed lookup
or a raised error (which the orchestrator catches). -/
inductive BatchOutcome where
  | ok (lookup : String → Option String)
  | err

/-- `ExtractOptions` of `src/types.ts`; the callback's presence is a flag
here, its behavior is a separate parameter of the model. -/
structure ExtractOptions where
  verifyCallback : Bool
  autoVerify : Option Bool

/-- `options?.autoVerify !== false`: automatic verification is on unless
explicitly disabled. -/
def autoVerifyEnabled : Option ExtractOptions → Bool
  | none => true
  | some o => !(o.autoVerify = some false)

/-- `options?.verifyCallback` is present. -/
def hasCallback : Option ExtractOptions → Bool
  | none => false
  | some o => o.verifyCallback

/-- Instrumentation record of one callback invocation: the index of the item
in the item list, the name passed, and the context built for the call. -/
structure CallbackInvocation where
  idx : Nat
  name : String
  ctx : VerificationContext
deriving Repr, DecidableEq

/-- Applying one callback outcome to an item: `if (result && result.verifiedName)`
replace the name and clear the flag; otherwise (null result, empty name, or a
caught error) the item is kept unchanged. -/
def cbApply (o : CbOutcome) (it : RawReceiptItem) : RawReceiptItem :=
  match o with
  | .ok (some r) =>
    if r.verifiedName ≠ "" then
      { it with name := r.verifiedName, needsVerification := false }
    else it
  | .ok none => it
  | .err => it

/-- The `VerificationContext` built inside the loop: the raw oracle text plus
the public-shaped snapshot of the whole current item list
(`parsedItems.map(({ needsVerification, ...item }) => ({...item}))`). -/
def cbCtx (raw : String) (items : List RawReceiptItem) : VerificationContext :=
  ⟨raw, items.map toPublic⟩

/-- The updated value of the current item after one callback invocation:
the callback is passed the item's name and the freshly built context. -/
def cbNext (cb : Nat → String → VerificationContext → CbOutcome) (raw : String)
    (acc : List RawReceiptItem) (it : RawReceiptItem) (rest : List RawReceiptItem) :
    RawReceiptItem :=
  cbApply (cb acc.length it.name (cbCtx raw (acc ++ it :: rest))) it

/-- The callback loop of `src/extract.ts` (step 3b), instrumented with the
invocation log.  `acc` is the list of already-visited items (with their
updates applied); the context is rebuilt from scratch before each invocation
from the whole current item list; items whose flag is cleared are skipped. -/
def runCbAux (cb : Nat → String → VerificationContext → CbOutcome) (raw : String) :
    List RawReceiptItem → List RawReceiptItem →
    List RawReceiptItem × List CallbackInvocation
  | _, [] => ([], [])
  | acc, it :: rest =>
    if it.needsVerification then
      (cbNext cb raw acc it rest ::
          (runCbAux cb raw (acc ++ [cbNext cb raw acc it rest]) rest).1,
        ⟨acc.length, it.name, cbCtx raw (acc ++ it :: rest)⟩ ::
          (runCbAux cb raw (acc ++ [cbNext cb raw acc it rest]) rest).2)
    else
      (it :: (runCbAux cb raw (acc ++ [it]) rest).1,
        (runCbAux cb raw (acc ++ [it]) rest).2)

/-- The batch-result application loop of `src/extract.ts` (step 3a): for each
still-flagged item, a non-empty mapped name replaces the item's name and
clears the flag. -/
def applyBatchMap (lookup : String → Option String) (items : List RawReceiptItem) :
    List RawReceiptItem :=
  items.map fun it =>
    if it.needsVerification then
      match lookup it.name with
      | some v => if v ≠ "" then { it with name := v, needsVerification := false } else it
      | none => it
    else it

/-- Step 3a of `extractReceiptItems`: the automatic batch pass, run only when
enabled and at least one item is flagged; a raised batch error is caught and
the items are kept unchanged. -/
def batchStage (opts : Option ExtractOptions) (batch : BatchOutcome)
    (items : List RawReceiptItem) : List RawReceiptItem :=
  if autoVerifyEnabled opts ∧ 0 < (items.filter (·.needsVerification)).length then
    match batch with
    | .ok lookup => applyBatchMap lookup items
    | .err => items
  else items

/-- Step 3b of `extractReceiptItems`: the caller-supplied callback pass, run
only when a callback is configured. -/
def callbackStage (opts : Option ExtractOptions)
    (cb : Nat → String → VerificationContext → CbOutcome) (raw : String)
    (items : List RawReceiptItem) :
    List RawReceiptItem × List CallbackInvocation :=
  if hasCallback opts then runCbAux cb raw [] items else (items, [])

/-- `ReceiptData` of `src/types.ts`. -/
structure ReceiptData where
  items : List ReceiptItem
  total : ℚ
deriving Repr, DecidableEq

/-- `extractReceiptItems` of `src/extract.ts`, from the oracle's response text
on (the Gemini call itself is abstracted into `responseText`, and the
`JSON.parse ∘ extractJson` outcome into `parsed`): parse, batch pass,
callback pass, public projection.  The second component of a successful
result is the instrumentation log of callback invocations. -/
def extractModel (responseText : String) (parsed : Except String Json)
    (opts : Option ExtractOptions) (batch : BatchOutcome)
    (cb : Nat → String → VerificationContext → CbOutcome) :
    Except String (ReceiptData × List CallbackInvocation) :=
  match parseResponseE responseText parsed with
  | .error e => .error e
  | .ok pd =>
    .ok ({ items :=
            (callbackStage opts cb responseText (batchStage opts batch pd.items)).1.map
              toPublic,
           total := pd.total },
         (callbackStage opts cb responseText (batchStage opts batch pd.items)).2)

/-! ## Sample values used by concrete checks -/

/-- A sample substantive line item ("ORG MLK", 12.5). -/
def sampleItem : RawReceiptItem :=
  { name := "ORG MLK", price := 25/2, quantity := 1, needsVerification := false,
    hasTax := false, taxAmount := none, deposit := none, discount := none,
    isAttachment := none, attachmentType := none, attachedTo := none }

/-- A sample deposit attachment (price 0.5, quantity 2). -/
def sampleDeposit : RawReceiptItem :=
  { name := "Deposit", price := 1/2, quantity := 2, needsVerification := false,
    hasTax := false, taxAmount := none, deposit := none, discount := none,
    isAttachment := some true, attachmentType := some "deposit", attachedTo := none }

/-- A sample discount attachment (price 0.5). -/
def sampleDiscount : RawReceiptItem :=
  { name := "Discount", price := 1/2, quantity := 1, needsVerification := false,
    hasTax := false, taxAmount := none, deposit := none, discount := none,
    isAttachment := some true, attachmentType := some "discount", attachedTo := none }

/-! ## Lemmas about the attachment merger -/

theorem attachmentFlag_strip (it : RawReceiptItem) :
    attachmentFlag (stripTransient it) = false := rfl

theorem stripTransient_idem (it : RawReceiptItem) :
    stripTransient (stripTransient it) = stripTransient it := rfl

/-- The scan emits exactly one output record per open current item plus one
per non-attachment input record. -/
theorem mergeLoop_length (l : List RawReceiptItem) :
    ∀ cur : Option RawReceiptItem,
      (mergeLoop cur l).length =
        (if cur.isSome then 1 else 0) + l.countP (fun it => !attachmentFlag it) := by
  induction l with
  | nil => intro cur; cases cur <;> simp [mergeLoop]
  | cons it rest ih =>
    intro cur
    by_cases h : attachmentFlag it
    · cases cur with
      | none => simp [mergeLoop, h, ih, List.countP_cons]
      | some c => simp [mergeLoop, h, ih, List.countP_cons]
    · cases cur with
      | none =>
        simp [mergeLoop, h, ih, List.countP_cons]
        omega
      | some c =>
        simp [mergeLoop, h, ih, List.countP_cons]
        omega

theorem mergeAttachments_length (l : List RawReceiptItem) :
    (mergeAttachments l).length = l.countP (fun it => !attachmentFlag it) := by
  simp [mergeAttachments, mergeLoop_length]

/-- On a list with no attachment records the scan is a plain copy. -/
theorem mergeLoop_clean (l : List RawReceiptItem)
    (h : ∀ it ∈ l, attachmentFlag it = false) :
    ∀ cur : Option RawReceiptItem, mergeLoop cur l = cur.toList ++ l := by
  induction l with
  | nil => intro cur; cases cur <;> simp [mergeLoop]
  | cons it rest ih =>
    intro cur
    have hit : attachmentFlag it = false := h it (by simp)
    have hrest : ∀ x ∈ rest, attachmentFlag x = false := fun x hx => h x (by simp [hx])
    cases cur with
    | none => simp [mergeLoop, hit, ih hrest]
    | some c => simp [mergeLoop, hit, ih hrest]

theorem mergeAttachments_no_attachment_flag (l : List RawReceiptItem) :
    ∀ it ∈ mergeAttachments l, attachmentFlag it = false := by
  intro it hit
  rcases List.mem_map.mp hit with ⟨x, _, rfl⟩
  exact attachmentFlag_strip x

/-- C10: Attachment merging is idempotent: the merged output contains no
attachment records and no transient metadata, so merging it again returns an
element-wise equal list. -/
theorem merge_idempotent (l : List RawReceiptItem) :
    mergeAttachments (mergeAttachments l) = mergeAttachments l := by
  have hclean := mergeAttachments_no_attachment_flag l
  show (mergeLoop none (mergeAttachments l)).map stripTransient = mergeAttachments l
  rw [mergeLoop_clean (mergeAttachments l) hclean none]
  show (mergeAttachments l).map stripTransient = mergeAttachments l
  unfold mergeAttachments
  rw [List.map_map]
  exact List.map_congr_left fun x _ => stripTransient_idem x

/-- C2: A `deposit` attachment adds `price × quantity` to the current item's
deposit (absent read as 0); a `discount` attachment subtracts its `price`
alone from the current item's discount.  In particular an oracle discount of
0.5 is stored as -0.5, and a deposit of 0.5 with quantity 2 is stored as
1.0. -/
theorem merge_attachment_arithmetic :
    (∀ (c a : RawReceiptItem) (l : List RawReceiptItem),
      attachmentFlag c = false → attachmentFlag a = true →
      a.attachmentType = some "deposit" →
      mergeAttachments (c :: a :: l) =
        mergeAttachments
          ({ c with deposit := some (c.deposit.getD 0 + a.price * a.quantity) } :: l)) ∧
    (∀ (c a : RawReceiptItem) (l : List RawReceiptItem),
      attachmentFlag c = false → attachmentFlag a = true →
      a.attachmentType = some "discount" →
      mergeAttachments (c :: a :: l) =
        mergeAttachments
          ({ c with discount := some (c.discount.getD 0 - a.price) } :: l)) ∧
    (mergeAttachments [sampleItem, sampleDeposit] =
      [{ sampleItem with deposit := some 1 }]) ∧
    (mergeAttachments [sampleItem, sampleDiscount] =
      [{ sampleItem with discount := some (-(1/2)) }]) := by
  refine ⟨?_, ?_,
    by simp [mergeAttachments, mergeLoop, attachmentFlag, applyAttachment,
        stripTransient, sampleItem, sampleDeposit],
    by simp [mergeAttachments, mergeLoop, attachmentFlag, applyAttachment,
        stripTransient, sampleItem, sampleDiscount]⟩
  · intro c a l hc ha hty
    show (mergeLoop none (c :: a :: l)).map stripTransient = _
    simp only [mergeLoop, hc, ha, Bool.false_eq_true, if_false, if_true,
      applyAttachment, hty, reduceIte]
    have hc' : attachmentFlag
        { c with deposit := some (c.deposit.getD 0 + a.price * a.quantity) } = false := hc
    show _ = (mergeLoop none (_ :: l)).map stripTransient
    simp only [mergeLoop, hc', Bool.false_eq_true, if_false]
  · intro c a l hc ha hty
    show (mergeLoop none (c :: a :: l)).map stripTransient = _
    simp only [mergeLoop, hc, ha, Bool.false_eq_true, if_false, if_true,
      applyAttachment, hty, Option.some.injEq, String.reduceEq, reduceIte]
    have hc' : attachmentFlag
        { c with discount := some (c.discount.getD 0 - a.price) } = false := hc
    show _ = (mergeLoop none (_ :: l)).map stripTransient
    simp only [mergeLoop, hc', Bool.false_eq_true, if_false]

theorem merge_attachment_arithmetic_witness :
    mergeAttachments [sampleItem, sampleDeposit, sampleDiscount] =
      mergeAttachments
        [{ sampleItem with
            deposit := some (sampleItem.deposit.getD 0 +
              sampleDeposit.price * sampleDeposit.quantity) },
          sampleDiscount] :=
  merge_attachment_arithmetic.1 sampleItem sampleDeposit [sampleDiscount]
    rfl rfl rfl

/-- C6: an attachment with no open current item is dropped; the output
carries no attachment-only metadata; output length is at most input length,
and strictly less whenever an attachment record is present. -/
theorem merge_structure_spec :
    (∀ (a : RawReceiptItem) (l : List RawReceiptItem), attachmentFlag a = true →
      mergeAttachments (a :: l) = mergeAttachments l) ∧
    (∀ (l : List RawReceiptItem), ∀ it ∈ mergeAttachments l,
      it.isAttachment = none ∧ it.attachmentType = none ∧ it.attachedTo = none) ∧
    (∀ l : List RawReceiptItem, (mergeAttachments l).length ≤ l.length) ∧
    (∀ l : List RawReceiptItem, (∃ a ∈ l, attachmentFlag a = true) →
      (mergeAttachments l).length < l.length) := by
  refine ⟨?_, ?_, ?_, ?_⟩
  · intro a l ha
    show (mergeLoop none (a :: l)).map stripTransient = _
    simp only [mergeLoop, ha, if_true]
    rfl
  · intro l it hit
    rcases List.mem_map.mp hit with ⟨x, _, rfl⟩
    exact ⟨rfl, rfl, rfl⟩
  · intro l
    rw [mergeAttachments_length]
    exact List.countP_le_length _
  · intro l ⟨a, hal, ha⟩
    rw [mergeAttachments_length, List.countP_eq_length_filter]
    exact List.length_filter_lt_length_iff_exists.mpr ⟨a, hal, by simp [ha]⟩

theorem merge_structure_spec_witness :
    mergeAttachments [sampleDeposit] = mergeAttachments ([] : List RawReceiptItem) ∧
    (mergeAttachments [sampleItem, sampleDeposit]).length < 2 :=
  ⟨merge_structure_spec.1 sampleDeposit [] rfl,
   merge_structure_spec.2.2.2 [sampleItem, sampleDeposit]
     ⟨sampleDeposit, List.Mem.tail _ (List.Mem.head _), rfl⟩⟩

/-! ## Lemmas about the response parser -/

/-- Whether an `Except` computation failed. -/
def isFailure {α : Type} : Except String α → Bool
  | .error _ => true
  | .ok _ => false

/-- The claim's per-item validity test: `name` must be a non-empty string and
`price` a non-negative number. -/
def claimItemInvalid (j : Json) : Bool :=
  !(match j.getField "name" with
    | some (.str s) => decide (s ≠ "")
    | _ => false) ||
  !(match j.getField "price" with
    | some (.num q) => decide (0 ≤ q)
    | _ => false)

/-- The payload's `items` field, when it is an array. -/
def itemsArrayOf (j : Json) : Option (List Json) :=
  match j.getField "items" with
  | some (.arr l) => some l
  | _ => none

/-- The payload's `total` field is a non-negative number. -/
def totalValid (j : Json) : Bool :=
  match j.getField "total" with
  | some (.num t) => decide (0 ≤ t)
  | _ => false

/-- The payload is a JSON object literal. -/
def isObjPayload : Json → Bool
  | .obj _ => true
  | _ => false

/-- The claim's characterization of when `parse` must fail: no extractable
JSON payload, payload not an object, `items` not an array, `total`
missing/negative/non-numeric, or some item invalid. -/
def claimParseFailure (parsed : Except String Json) : Prop :=
  (∃ m, parsed = .error m) ∨
  ∃ j, parsed = .ok j ∧
    (isObjPayload j = false ∨ itemsArrayOf j = none ∨ totalValid j = false ∨
      ∃ l, itemsArrayOf j = some l ∧ ∃ x ∈ l, claimItemInvalid x = true)

/-- Item normalization rejects an item exactly when the claim's per-item
validity test fails. -/
theorem normalizeRawItemE_isError (j : Json) :
    isFailure (normalizeRawItemE j) = claimItemInvalid j := by
  cases j with
  | obj fields =>
    unfold normalizeRawItemE claimItemInvalid
    rcases hn : (Json.obj fields).getField "name" with _ | jn
    · simp [hn, isFailure]
    · cases jn with
      | str s =>
        by_cases hs : s = ""
        · simp [hn, hs, isFailure]
        · rcases hp : (Json.obj fields).getField "price" with _ | jp
          · simp [hn, hs, hp, isFailure]
          · cases jp with
            | num q =>
              by_cases hq : q < 0
              · simp [hn, hs, hp, hq, isFailure, not_le.mpr hq]
              · simp [hn, hs, hp, hq, isFailure, not_lt.mp hq]
            | null => simp [hn, hs, hp, isFailure]
            | bool b => simp [hn, hs, hp, isFailure]
            | str s2 => simp [hn, hs, hp, isFailure]
            | arr l2 => simp [hn, hs, hp, isFailure]
            | obj f2 => simp [hn, hs, hp, isFailure]
      | null => simp [hn, isFailure]
      | bool b => simp [hn, isFailure]
      | num q => simp [hn, isFailure]
      | arr l2 => simp [hn, isFailure]
      | obj f2 => simp [hn, isFailure]
  | arr l => simp [normalizeRawItemE, claimItemInvalid, Json.getField, isFailure]
  | null => rfl
  | bool b => rfl
  | num q => rfl
  | str s => rfl

/-- `normalizeItems` fails exactly when some raw item is rejected. -/
theorem normalizeItems_isError (l : List Json) :
    ∀ s : Nat, isFailure (normalizeItems l s) =
      l.any fun x => isFailure (normalizeRawItemE x) := by
  induction l with
  | nil => intro s; rfl
  | cons j rest ih =>
    intro s
    unfold normalizeItems
    rcases hj : normalizeRawItemE j with m | it
    · simp [isFailure, hj]
    · rcases hr : normalizeItems rest (s + 1) with e | its
      · have h := ih (s + 1)
        rw [hr] at h
        have h' : (rest.any fun x => isFailure (normalizeRawItemE x)) = true := h.symm.trans rfl
        simp only [hj, hr, List.any_cons, isFailure, Bool.false_or]
        exact h'.symm
      · have h := ih (s + 1)
        rw [hr] at h
        have h' : (rest.any fun x => isFailure (normalizeRawItemE x)) = false := h.symm.trans rfl
        simp only [hj, hr, List.any_cons, isFailure, Bool.false_or]
        exact h'.symm

/-- `normalizeItems` stops at the first rejected item and reports its
absolute index and the underlying reason. -/
theorem normalizeItems_first_error (l : List Json) :
    ∀ (s i : Nat) (x : Json) (em : String),
      l[i]? = some x → normalizeRawItemE x = .error em →
      (∀ k y, k < i → l[k]? = some y → isFailure (normalizeRawItemE y) = false) →
      normalizeItems l s =
        .error ("Invalid item at index " ++ toString (s + i) ++ ": " ++ em) := by
  induction l with
  | nil => intro s i x em hx; simp at hx
  | cons j rest ih =>
    intro s i x em hx hxe hprev
    cases i with
    | zero =>
      simp only [List.getElem?_cons_zero, Option.some.injEq] at hx
      subst hx
      unfold normalizeItems
      rw [hxe]
      rfl
    | succ i' =>
      have hj : isFailure (normalizeRawItemE j) = false :=
        hprev 0 j (Nat.succ_pos i') (by simp)
      rcases hjv : normalizeRawItemE j with m | it
      · rw [hjv] at hj; simp [isFailure] at hj
      · unfold normalizeItems
        rw [hjv]
        have hrec := ih (s + 1) i' x em (by simpa using hx) hxe
          (fun k y hk hky => hprev (k + 1) y (Nat.succ_lt_succ hk) (by simpa using hky))
        rw [hrec]
        have : s + 1 + i' = s + (i' + 1) := by omega
        rw [this]

theorem parseResponseE_ok_iff (r : String) (parsed : Except String Json)
    (pd : ParsedReceiptData) :
    parseResponseE r parsed = .ok pd ↔ parseResponseCore parsed = .ok pd := by
  unfold parseResponseE
  rcases h : parseResponseCore parsed with m | pd' <;> simp

/-- C3: `parse` fails — with no partial result — exactly under the claim's
conditions; the error always wraps the original raw text, and an
item-validation failure reports the first failing item's index and the
underlying reason; the `items:"not-an-array"` input fails. -/
theorem parse_failure_spec :
    (∀ (r : String) (parsed : Except String Json),
      isFailure (parseResponseE r parsed) = true ↔ claimParseFailure parsed) ∧
    (∀ (r : String) (parsed : Except String Json) (e : String),
      parseResponseE r parsed = .error e → ∃ m, e = mkParseError r m) ∧
    (∀ (r : String) (j : Json) (l : List Json) (i : Nat) (x : Json) (em : String),
      j.getField "items" = some (.arr l) →
      totalValid j = true →
      l[i]? = some x → normalizeRawItemE x = .error em →
      (∀ k y, k < i → l[k]? = some y → isFailure (normalizeRawItemE y) = false) →
      parseResponseE r (.ok j) =
        .error (mkParseError r ("Invalid item at index " ++ toString i ++ ": " ++ em))) ∧
    (isFailure (parseResponseE "not-an-array-response"
      (.ok (.obj [("items", .str "not-an-array"), ("total", .num 10)]))) = true) := by
  refine ⟨?_, ?_, ?_, by decide⟩
  · intro r parsed
    rcases parsed with m | j
    · exact iff_of_true rfl (Or.inl ⟨m, rfl⟩)
    · show isFailure (parseResponseE r (.ok j)) = true ↔ _
      cases j with
      | null => exact iff_of_true rfl (Or.inr ⟨_, rfl, Or.inl rfl⟩)
      | bool b => exact iff_of_true rfl (Or.inr ⟨_, rfl, Or.inl rfl⟩)
      | num q => exact iff_of_true rfl (Or.inr ⟨_, rfl, Or.inl rfl⟩)
      | str s => exact iff_of_true rfl (Or.inr ⟨_, rfl, Or.inl rfl⟩)
      | arr l => exact iff_of_true rfl (Or.inr ⟨_, rfl, Or.inl rfl⟩)
      | obj fields =>
        unfold parseResponseE parseResponseCore
        rcases hi : (Json.obj fields).getField "items" with _ | ji
        · refine iff_of_true ?_ (Or.inr ⟨_, rfl, Or.inr (Or.inl ?_)⟩)
          · simp [objectLike, hi, isFailure]
          · simp [itemsArrayOf, hi]
        · cases ji with
          | arr l =>
            rcases ht : (Json.obj fields).getField "total" with _ | jt
            · refine iff_of_true ?_ (Or.inr ⟨_, rfl, Or.inr (Or.inr (Or.inl ?_))⟩)
              · simp [objectLike, hi, ht, isFailure]
              · simp [totalValid, ht]
            · cases jt with
              | num t =>
                by_cases htn : t < 0
                · refine iff_of_true ?_ (Or.inr ⟨_, rfl, Or.inr (Or.inr (Or.inl ?_))⟩)
                  · simp [objectLike, hi, ht, htn, isFailure]
                  · simp [totalValid, ht, not_le.mpr htn]
                · simp only [objectLike, hi, ht, htn, if_false, if_true]
                  rcases hni : normalizeItems l 0 with e | its
                  · refine iff_of_true (by simp [isFailure]) ?_
                    have hany : (l.any fun x => isFailure (normalizeRawItemE x)) = true := by
                      have := normalizeItems_isError l 0
                      rw [hni] at this
                      exact this.symm.trans rfl
                    rcases List.any_eq_true.mp hany with ⟨x, hxl, hxf⟩
                    exact Or.inr ⟨_, rfl, Or.inr (Or.inr (Or.inr ⟨l, by simp [itemsArrayOf, hi],
                      x, hxl, (normalizeRawItemE_isError x).symm.trans hxf⟩))⟩
                  · refine iff_of_false (by simp [isFailure]) ?_
                    intro hcl
                    rcases hcl with ⟨m, hm⟩ | ⟨j', hj', hbad⟩
                    · exact Except.noConfusion hm
                    · have hj'' : j' = Json.obj fields := by
                        injection hj' with h'
                        exact h'.symm
                      subst hj''
                      rcases hbad with h1 | h2 | h3 | ⟨l', hl', x, hxl, hxi⟩
                      · exact Bool.noConfusion h1
                      · rw [itemsArrayOf, hi] at h2; exact Option.noConfusion h2
                      · rw [totalValid, ht] at h3
                        simp [not_lt.mp htn] at h3
                      · rw [itemsArrayOf, hi] at hl'
                        injection hl' with hl''
                        subst hl''
                        have hfail : (l.any fun x => isFailure (normalizeRawItemE x)) = true :=
                          List.any_eq_true.mpr ⟨x, hxl, (normalizeRawItemE_isError x).trans hxi⟩
                        have := normalizeItems_isError l 0
                        rw [hni] at this
                        rw [hfail] at this
                        exact Bool.noConfusion this
              | null =>
                refine iff_of_true ?_ (Or.inr ⟨_, rfl, Or.inr (Or.inr (Or.inl ?_))⟩)
                · simp [objectLike, hi, ht, isFailure]
                · simp [totalValid, ht]
              | bool b =>
                refine iff_of_true ?_ (Or.inr ⟨_, rfl, Or.inr (Or.inr (Or.inl ?_))⟩)
                · simp [objectLike, hi, ht, isFailure]
                · simp [totalValid, ht]
              | str s =>
                refine iff_of_true ?_ (Or.inr ⟨_, rfl, Or.inr (Or.inr (Or.inl ?_))⟩)
                · simp [objectLike, hi, ht, isFailure]
                · simp [totalValid, ht]
              | arr l' =>
                refine iff_of_true ?_ (Or.inr ⟨_, rfl, Or.inr (Or.inr (Or.inl ?_))⟩)
                · simp [objectLike, hi, ht, isFailure]
                · simp [totalValid, ht]
              | obj fs' =>
                refine iff_of_true ?_ (Or.inr ⟨_, rfl, Or.inr (Or.inr (Or.inl ?_))⟩)
                · simp [objectLike, hi, ht, isFailure]
                · simp [totalValid, ht]
          | null =>
            refine iff_of_true (by simp [objectLike, hi, isFailure])
              (Or.inr ⟨_, rfl, Or.inr (Or.inl (by simp [itemsArrayOf, hi]))⟩)
          | bool b =>
            refine iff_of_true (by simp [objectLike, hi, isFailure])
              (Or.inr ⟨_, rfl, Or.inr (Or.inl (by simp [itemsArrayOf, hi]))⟩)
          | num q =>
            refine iff_of_true (by simp [objectLike, hi, isFailure])
              (Or.inr ⟨_, rfl, Or.inr (Or.inl (by simp [itemsArrayOf, hi]))⟩)
          | str s =>
            refine iff_of_true (by simp [objectLike, hi, isFailure])
              (Or.inr ⟨_, rfl, Or.inr (Or.inl (by simp [itemsArrayOf, hi]))⟩)
          | obj fs =>
            refine iff_of_true (by simp [objectLike, hi, isFailure])
              (Or.inr ⟨_, rfl, Or.inr (Or.inl (by simp [itemsArrayOf, hi]))⟩)
  · intro r parsed e h
    unfold parseResponseE at h
    rcases hc : parseResponseCore parsed with m | pd <;> rw [hc] at h
    · injection h with h'
      exact ⟨m, h'.symm⟩
    · exact Except.noConfusion h
  · intro r j l i x em hi ht hx hxe hprev
    have hj : ∃ fs, j = Json.obj fs := by
      cases j <;> simp [Json.getField] at hi
      exact ⟨_, rfl⟩
    rcases hj with ⟨fs, rfl⟩
    have htv : ∃ t, (Json.obj fs).getField "total" = some (.num t) ∧ (0:ℚ) ≤ t := by
      revert ht
      unfold totalValid
      rcases h : (Json.obj fs).getField "total" with _ | jt
      · intro h'; exact Bool.noConfusion h'
      · cases jt <;> intro h' <;> first
          | exact Bool.noConfusion h'
          | exact ⟨_, rfl, of_decide_eq_true h'⟩
    rcases htv with ⟨t, ht', htnn⟩
    have hne := normalizeItems_first_error l 0 i x em hx hxe hprev
    unfold parseResponseE parseResponseCore
    simp only [objectLike, hi, ht', if_true]
    rw [if_neg (not_lt.mpr htnn), hne]
    simp

theorem parse_failure_spec_witness :
    parseResponseE "raw"
        (.ok (.obj [("items", .arr [.obj [("name", .num 1)]]), ("total", .num 5)])) =
      .error (mkParseError "raw" ("Invalid item at index " ++ toString 0 ++
        ": " ++ "Invalid item: missing or invalid name field")) :=
  parse_failure_spec.2.2.1 "raw"
    (.obj [("items", .arr [.obj [("name", .num 1)]]), ("total", .num 5)])
    [.obj [("name", .num 1)]] 0 (.obj [("name", .num 1)])
    "Invalid item: missing or invalid name field"
    rfl (by decide) rfl rfl
    (fun k y hk _ => absurd hk (Nat.not_lt_zero k))

/-! ## C9: normalization rules -/

/-- A raw item whose `quantity` is a negative non-integer-constrained number,
whose `taxAmount` is negative, and whose `needsVerification` is the
(truthy, non-boolean) number 1. -/
def c9RawItem : Json :=
  .obj [("name", .str "A"), ("price", .num 1), ("quantity", .num (-3)),
        ("taxAmount", .num (-1)), ("needsVerification", .num 1)]

/-- An oracle payload containing just `c9RawItem`. -/
def c9Payload : Json := .obj [("items", .arr [c9RawItem]), ("total", .num 0)]

/-- What the parser actually produces for `c9RawItem`. -/
def c9Item : RawReceiptItem :=
  { name := "A", price := 1, quantity := -3, needsVerification := true,
    hasTax := false, taxAmount := some (-1), deposit := none, discount := none,
    isAttachment := none, attachmentType := none, attachedTo := none }

/-- C9 is false as stated: on `c9Payload` the parse succeeds, but the output
item has a negative (non-positive-integer) quantity, a negative `taxAmount`,
and `needsVerification = true` although the raw field was non-boolean. -/
theorem normalization_rules_counterexample :
    ¬ (∀ pd : ParsedReceiptData,
        parseResponseE "r" (.ok c9Payload) = .ok pd →
        ∀ it ∈ pd.items,
          (0 < it.quantity ∧ ∃ n : ℕ, it.quantity = n) ∧
          (∀ t, it.taxAmount = some t → 0 ≤ t) ∧
          it.needsVerification = false) := by
  intro h
  have h2 := h ⟨[c9Item], 0⟩ rfl c9Item (List.Mem.head _)
  exact absurd h2.1.1 (by decide)

/-- C9 amended: `quantity` is the raw number when numeric (with no
positivity or integrality check), else 1; `needsVerification` and `hasTax`
are the JavaScript-truthiness coercion of the raw field;
`taxAmount`/`deposit`/`discount` are kept if and only if numeric (with no
sign check); `name` is a validated non-empty string and `price` a validated
non-negative number. -/
theorem normalization_rules_amended :
    ∀ (j : Json) (it : RawReceiptItem), normalizeRawItemE j = .ok it →
      it.quantity = (match j.getField "quantity" with
        | some (.num q) => q
        | _ => 1) ∧
      it.needsVerification = jsTruthy (j.getField "needsVerification") ∧
      it.hasTax = jsTruthy (j.getField "hasTax") ∧
      it.taxAmount = (match j.getField "taxAmount" with
        | some (.num t) => some t
        | _ => none) ∧
      it.deposit = (match j.getField "deposit" with
        | some (.num d) => some d
        | _ => none) ∧
      it.discount = (match j.getField "discount" with
        | some (.num d) => some d
        | _ => none) ∧
      (∃ s, j.getField "name" = some (.str s) ∧ s ≠ "" ∧ it.name = s) ∧
      (∃ p, j.getField "price" = some (.num p) ∧ 0 ≤ p ∧ it.price = p) := by
  intro j it
  unfold normalizeRawItemE
  cases j with
  | obj fields =>
    rcases hn : (Json.obj fields).getField "name" with _ | jn
    · simp only [hn]
      intro h; exact Except.noConfusion h
    · cases jn with
      | str s =>
        simp only [hn]
        by_cases hs : s = ""
        · rw [if_pos hs]
          intro h; exact Except.noConfusion h
        · rw [if_neg hs]
          rcases hp : (Json.obj fields).getField "price" with _ | jp
          · simp only [hp]
            intro h; exact Except.noConfusion h
          · cases jp with
            | num p =>
              simp only [hp]
              by_cases hq : p < 0
              · rw [if_pos hq]
                intro h; exact Except.noConfusion h
              · rw [if_neg hq]
                intro h
                injection h with h'
                subst h'
                exact ⟨rfl, rfl, rfl, rfl, rfl, rfl, ⟨s, rfl, hs, rfl⟩,
                  ⟨p, rfl, not_lt.mp hq, rfl⟩⟩
            | null => simp only [hp]; intro h; exact Except.noConfusion h
            | bool b => simp only [hp]; intro h; exact Except.noConfusion h
            | str s2 => simp only [hp]; intro h; exact Except.noConfusion h
            | arr l2 => simp only [hp]; intro h; exact Except.noConfusion h
            | obj f2 => simp only [hp]; intro h; exact Except.noConfusion h
      | null => simp only [hn]; intro h; exact Except.noConfusion h
      | bool b => simp only [hn]; intro h; exact Except.noConfusion h
      | num q => simp only [hn]; intro h; exact Except.noConfusion h
      | arr l2 => simp only [hn]; intro h; exact Except.noConfusion h
      | obj f2 => simp only [hn]; intro h; exact Except.noConfusion h
  | arr l => intro h; exact Except.noConfusion h
  | null => intro h; exact Except.noConfusion h
  | bool b => intro h; exact Except.noConfusion h
  | num q => intro h; exact Except.noConfusion h
  | str s => intro h; exact Except.noConfusion h

theorem normalization_rules_amended_witness :
    c9Item.quantity = (match c9RawItem.getField "quantity" with
      | some (.num q) => q
      | _ => 1) ∧
    c9Item.needsVerification = jsTruthy (c9RawItem.getField "needsVerification") ∧
    c9Item.hasTax = jsTruthy (c9RawItem.getField "hasTax") ∧
    c9Item.taxAmount = (match c9RawItem.getField "taxAmount" with
      | some (.num t) => some t
      | _ => none) ∧
    c9Item.deposit = (match c9RawItem.getField "deposit" with
      | some (.num d) => some d
      | _ => none) ∧
    c9Item.discount = (match c9RawItem.getField "discount" with
      | some (.num d) => some d
      | _ => none) ∧
    (∃ s, c9RawItem.getField "name" = some (.str s) ∧ s ≠ "" ∧ c9Item.name = s) ∧
    (∃ p, c9RawItem.getField "price" = some (.num p) ∧ 0 ≤ p ∧ c9Item.price = p) :=
  normalization_rules_amended c9RawItem c9Item rfl

/-! ## Lemmas about the callback pass -/

theorem runCbAux_nil (cb : Nat → String → VerificationContext → CbOutcome)
    (raw : String) (acc : List RawReceiptItem) :
    runCbAux cb raw acc [] = ([], []) := rfl

theorem runCbAux_fst_cons_pos (cb : Nat → String → VerificationContext → CbOutcome)
    (raw : String) (acc : List RawReceiptItem) (it : RawReceiptItem)
    (rest : List RawReceiptItem) (h : it.needsVerification = true) :
    (runCbAux cb raw acc (it :: rest)).1 =
      cbNext cb raw acc it rest ::
        (runCbAux cb raw (acc ++ [cbNext cb raw acc it rest]) rest).1 := by
  simp only [runCbAux]
  rw [if_pos h]

theorem runCbAux_snd_cons_pos (cb : Nat → String → VerificationContext → CbOutcome)
    (raw : String) (acc : List RawReceiptItem) (it : RawReceiptItem)
    (rest : List RawReceiptItem) (h : it.needsVerification = true) :
    (runCbAux cb raw acc (it :: rest)).2 =
      ⟨acc.length, it.name, cbCtx raw (acc ++ it :: rest)⟩ ::
        (runCbAux cb raw (acc ++ [cbNext cb raw acc it rest]) rest).2 := by
  simp only [runCbAux]
  rw [if_pos h]

theorem runCbAux_fst_cons_neg (cb : Nat → String → VerificationContext → CbOutcome)
    (raw : String) (acc : List RawReceiptItem) (it : RawReceiptItem)
    (rest : List RawReceiptItem) (h : it.needsVerification = false) :
    (runCbAux cb raw acc (it :: rest)).1 =
      it :: (runCbAux cb raw (acc ++ [it]) rest).1 := by
  simp only [runCbAux]
  rw [if_neg (by simp [h])]

theorem runCbAux_snd_cons_neg (cb : Nat → String → VerificationContext → CbOutcome)
    (raw : String) (acc : List RawReceiptItem) (it : RawReceiptItem)
    (rest : List RawReceiptItem) (h : it.needsVerification = false) :
    (runCbAux cb raw acc (it :: rest)).2 =
      (runCbAux cb raw (acc ++ [it]) rest).2 := by
  simp only [runCbAux]
  rw [if_neg (by simp [h])]

/-- The pass preserves the number of items. -/
theorem runCbAux_length (cb : Nat → String → VerificationContext → CbOutcome)
    (raw : String) :
    ∀ (rest acc : List RawReceiptItem),
      (runCbAux cb raw acc rest).1.length = rest.length := by
  intro rest
  induction rest with
  | nil => intro acc; rfl
  | cons it rest ih =>
    intro acc
    cases hf : it.needsVerification with
    | true => rw [runCbAux_fst_cons_pos cb raw acc it rest hf]; simp [ih]
    | false => rw [runCbAux_fst_cons_neg cb raw acc it rest hf]; simp [ih]

/-- Items whose flag is not set pass through the callback loop untouched. -/
theorem runCbAux_unflagged (cb : Nat → String → VerificationContext → CbOutcome)
    (raw : String) :
    ∀ (rest acc : List RawReceiptItem) (i : Nat) (it : RawReceiptItem),
      rest[i]? = some it → it.needsVerification = false →
      (runCbAux cb raw acc rest).1[i]? = some it := by
  intro rest
  induction rest with
  | nil => intro acc i it h _; simp at h
  | cons j rest ih =>
    intro acc i it h hflag
    cases i with
    | zero =>
      rw [List.getElem?_cons_zero, Option.some.injEq] at h
      subst h
      rw [runCbAux_fst_cons_neg cb raw acc j rest hflag]
      exact List.getElem?_cons_zero
    | succ i' =>
      rw [List.getElem?_cons_succ] at h
      cases hf : j.needsVerification with
      | true =>
        rw [runCbAux_fst_cons_pos cb raw acc j rest hf, List.getElem?_cons_succ]
        exact ih _ i' it h hflag
      | false =>
        rw [runCbAux_fst_cons_neg cb raw acc j rest hf, List.getElem?_cons_succ]
        exact ih _ i' it h hflag

/-- Full characterization of an invocation-log entry: it belongs to a
still-flagged item at index `acc.length + k` of the remaining input, carries
that item's (pre-update) name, its context is the public projection of the
current item list at invocation time (already-updated prefix, untouched
suffix), and the item's final value is exactly the application of the
callback's outcome for this entry. -/
theorem runCbAux_log_spec (cb : Nat → String → VerificationContext → CbOutcome)
    (raw : String) :
    ∀ (rest acc : List RawReceiptItem),
      ∀ e ∈ (runCbAux cb raw acc rest).2,
        ∃ k it, e.idx = acc.length + k ∧ rest[k]? = some it ∧
          it.needsVerification = true ∧ e.name = it.name ∧
          e.ctx = cbCtx raw (List.take e.idx (acc ++ (runCbAux cb raw acc rest).1) ++
            List.drop e.idx (acc ++ rest)) ∧
          (runCbAux cb raw acc rest).1[k]? = some (cbApply (cb e.idx it.name e.ctx) it) := by
  intro rest
  induction rest with
  | nil => intro acc e he; simp [runCbAux] at he
  | cons j rest ih =>
    intro acc e he
    cases hf : j.needsVerification with
    | false =>
      rw [runCbAux_snd_cons_neg cb raw acc j rest hf] at he
      rcases ih (acc ++ [j]) e he with ⟨k, it, hidx, hk, hflag, hname, hctx, hval⟩
      refine ⟨k + 1, it, ?_, ?_, hflag, hname, ?_, ?_⟩
      · rw [hidx]
        simp only [List.length_append, List.length_cons, List.length_nil]
        omega
      · rw [List.getElem?_cons_succ]; exact hk
      · rw [hctx, runCbAux_fst_cons_neg cb raw acc j rest hf]
        simp only [List.append_assoc, List.singleton_append]
      · rw [runCbAux_fst_cons_neg cb raw acc j rest hf, List.getElem?_cons_succ]
        exact hval
    | true =>
      rw [runCbAux_snd_cons_pos cb raw acc j rest hf] at he
      rcases List.mem_cons.mp he with he | he
      · subst he
        refine ⟨0, j, by simp, by simp, hf, rfl, ?_, ?_⟩
        · show cbCtx raw (acc ++ j :: rest) =
            cbCtx raw (List.take acc.length (acc ++ (runCbAux cb raw acc (j :: rest)).1) ++
              List.drop acc.length (acc ++ j :: rest))
          rw [List.take_left, List.drop_left]
        · rw [runCbAux_fst_cons_pos cb raw acc j rest hf, List.getElem?_cons_zero]
          rfl
      · rcases ih (acc ++ [cbNext cb raw acc j rest]) e he with
          ⟨k, it, hidx, hk, hflag, hname, hctx, hval⟩
        refine ⟨k + 1, it, ?_, ?_, hflag, hname, ?_, ?_⟩
        · rw [hidx]
          simp only [List.length_append, List.length_cons, List.length_nil]
          omega
        · rw [List.getElem?_cons_succ]; exact hk
        · rw [hctx, runCbAux_fst_cons_pos cb raw acc j rest hf]
          refine congrArg (cbCtx raw) (congrArg₂ (· ++ ·) ?_ ?_)
          · simp only [List.append_assoc, List.singleton_append]
          · have h1 : List.drop e.idx ((acc ++ [cbNext cb raw acc j rest]) ++ rest) =
                List.drop k rest := by
              rw [hidx, List.drop_append]
            have h2 : List.drop e.idx (acc ++ j :: rest) = List.drop k rest := by
              rw [List.append_cons acc j rest, hidx]
              have hlen : (acc ++ [cbNext cb raw acc j rest]).length =
                  (acc ++ [j]).length := by simp
              rw [hlen, List.drop_append]
            rw [h1, h2]
        · rw [runCbAux_fst_cons_pos cb raw acc j rest hf, List.getElem?_cons_succ]
          exact hval

/-- Invocations happen in strictly increasing index order. -/
theorem runCbAux_log_sorted (cb : Nat → String → VerificationContext → CbOutcome)
    (raw : String) :
    ∀ (rest acc : List RawReceiptItem),
      (runCbAux cb raw acc rest).2.Pairwise (fun a b => a.idx < b.idx) := by
  intro rest
  induction rest with
  | nil => intro acc; simp [runCbAux]
  | cons j rest ih =>
    intro acc
    cases hf : j.needsVerification with
    | false => rw [runCbAux_snd_cons_neg cb raw acc j rest hf]; exact ih _
    | true =>
      rw [runCbAux_snd_cons_pos cb raw acc j rest hf]
      refine List.Pairwise.cons ?_ (ih _)
      intro e he
      rcases runCbAux_log_spec cb raw rest (acc ++ [cbNext cb raw acc j rest]) e he with
        ⟨k, it, hidx, _⟩
      show acc.length < e.idx
      rw [hidx]
      simp only [List.length_append, List.length_cons, List.length_nil]
      omega

/-- Every still-flagged item of the pass input gets a callback invocation,
regardless of the outcomes (including errors) at other items. -/
theorem runCbAux_flagged_logged (cb : Nat → String → VerificationContext → CbOutcome)
    (raw : String) :
    ∀ (rest acc : List RawReceiptItem) (i : Nat) (it : RawReceiptItem),
      rest[i]? = some it → it.needsVerification = true →
      ∃ e ∈ (runCbAux cb raw acc rest).2, e.idx = acc.length + i := by
  intro rest
  induction rest with
  | nil => intro acc i it h _; simp at h
  | cons j rest ih =>
    intro acc i it h hflag
    cases i with
    | zero =>
      rw [List.getElem?_cons_zero, Option.some.injEq] at h
      subst h
      rw [runCbAux_snd_cons_pos cb raw acc j rest hflag]
      exact ⟨⟨acc.length, j.name, cbCtx raw (acc ++ j :: rest)⟩, List.Mem.head _, by simp⟩
    | succ i' =>
      rw [List.getElem?_cons_succ] at h
      cases hf : j.needsVerification with
      | true =>
        rw [runCbAux_snd_cons_pos cb raw acc j rest hf]
        rcases ih (acc ++ [cbNext cb raw acc j rest]) i' it h hflag with ⟨e, he, hidx⟩
        refine ⟨e, List.Mem.tail _ he, ?_⟩
        rw [hidx]
        simp only [List.length_append, List.length_cons, List.length_nil]
        omega
      | false =>
        rw [runCbAux_snd_cons_neg cb raw acc j rest hf]
        rcases ih (acc ++ [j]) i' it h hflag with ⟨e, he, hidx⟩
        refine ⟨e, he, ?_⟩
        rw [hidx]
        simp only [List.length_append, List.length_cons, List.length_nil]
        omega

/-- C5: in the callback pass, still-flagged items are visited in original
order (strictly increasing indices, exactly the still-flagged ones); a fresh
context is built for each invocation from the raw text and the
public-shaped snapshot of the current items — updated prefix, untouched
suffix — so it reflects resolutions applied earlier in the pass; and the
item's name/flag are updated if and only if the callback returns a non-null
result with a non-empty `verifiedName`. -/
theorem callback_pass_sequencing :
    ∀ (cb : Nat → String → VerificationContext → CbOutcome) (raw : String)
      (items : List RawReceiptItem),
      ((runCbAux cb raw [] items).2.Pairwise fun a b => a.idx < b.idx) ∧
      (∀ e ∈ (runCbAux cb raw [] items).2,
        ∃ it, items[e.idx]? = some it ∧ it.needsVerification = true ∧
          e.name = it.name ∧
          e.ctx.rawText = raw ∧
          e.ctx.allItems =
            (List.take e.idx (runCbAux cb raw [] items).1 ++
              List.drop e.idx items).map toPublic ∧
          (runCbAux cb raw [] items).1[e.idx]? =
            some (cbApply (cb e.idx it.name e.ctx) it) ∧
          (∀ r, cb e.idx it.name e.ctx = .ok (some r) → r.verifiedName ≠ "" →
            (runCbAux cb raw [] items).1[e.idx]? =
              some { it with name := r.verifiedName, needsVerification := false }) ∧
          (∀ r, cb e.idx it.name e.ctx = .ok (some r) → r.verifiedName = "" →
            (runCbAux cb raw [] items).1[e.idx]? = some it) ∧
          (cb e.idx it.name e.ctx = .ok none →
            (runCbAux cb raw [] items).1[e.idx]? = some it)) ∧
      (∀ (i : Nat) (it : RawReceiptItem), items[i]? = some it →
        it.needsVerification = true →
        ∃ e ∈ (runCbAux cb raw [] items).2, e.idx = i) := by
  intro cb raw items
  refine ⟨runCbAux_log_sorted cb raw items [], ?_, ?_⟩
  · intro e he
    rcases runCbAux_log_spec cb raw items [] e he with
      ⟨k, it, hidx, hk, hflag, hname, hctx, hval⟩
    have hidx' : e.idx = k := by rw [hidx]; simp
    subst hidx'
    refine ⟨it, hk, hflag, hname, ?_, ?_, hval, ?_, ?_, ?_⟩
    · rw [hctx]; rfl
    · rw [hctx]
      show (List.take e.idx ([] ++ (runCbAux cb raw [] items).1) ++
          List.drop e.idx ([] ++ items)).map toPublic = _
      rw [List.nil_append, List.nil_append]
    · intro r hr hne
      rw [hval, hr]
      show some (if r.verifiedName ≠ "" then _ else it) = _
      rw [if_pos hne]
    · intro r hr hemp
      rw [hval, hr]
      show some (if r.verifiedName ≠ "" then _ else it) = some it
      rw [if_neg (by simp [hemp])]
    · intro hr
      rw [hval, hr]
      rfl
  · intro i it h hflag
    rcases runCbAux_flagged_logged cb raw items [] i it h hflag with ⟨e, he, hidx⟩
    exact ⟨e, he, by rw [hidx]; simp⟩

/-- A sample flagged item. -/
def sampleFlagged : RawReceiptItem :=
  { sampleItem with needsVerification := true }

/-- A sample callback behavior that always resolves to "Organic Milk". -/
def sampleCb : Nat → String → VerificationContext → CbOutcome :=
  fun _ _ _ => .ok (some ⟨"Organic Milk"⟩)

theorem callback_pass_sequencing_witness :
    ∃ e ∈ (runCbAux sampleCb "raw" [] [sampleFlagged]).2, e.idx = 0 :=
  (callback_pass_sequencing sampleCb "raw" [sampleFlagged]).2.2 0 sampleFlagged rfl rfl

/-! ## Lemmas about the batch pass and the extraction facade -/

theorem applyBatchMap_getElem (lookup : String → Option String)
    (items : List RawReceiptItem) (i : Nat) (it : RawReceiptItem)
    (h : items[i]? = some it) :
    (applyBatchMap lookup items)[i]? =
      some (if it.needsVerification then
        match lookup it.name with
        | some v =>
          if v ≠ "" then { it with name := v, needsVerification := false } else it
        | none => it
      else it) := by
  simp [applyBatchMap, List.getElem?_map, h]

/-- A raised batch error is caught: the items are left untouched. -/
theorem batchStage_err (opts : Option ExtractOptions) (items : List RawReceiptItem) :
    batchStage opts .err items = items := by
  unfold batchStage
  split <;> rfl

/-- A lookup that resolves nothing leaves every item untouched. -/
theorem batchStage_none_lookup (opts : Option ExtractOptions)
    (items : List RawReceiptItem) :
    batchStage opts (.ok fun _ => none) items = items := by
  unfold batchStage
  split
  · show applyBatchMap (fun _ => none) items = items
    unfold applyBatchMap
    have : ∀ it : RawReceiptItem,
        (if it.needsVerification then it else it) = it := fun it => ite_self it
    simp
  · rfl

/-- When automatic verification is enabled and some item is flagged, the
batch stage is exactly the lookup application. -/
theorem batchStage_enabled (opts : Option ExtractOptions)
    (lookup : String → Option String) (items : List RawReceiptItem)
    (hen : autoVerifyEnabled opts = true)
    (hne : 0 < (items.filter (·.needsVerification)).length) :
    batchStage opts (.ok lookup) items = applyBatchMap lookup items := by
  unfold batchStage
  rw [if_pos ⟨hen, hne⟩]

theorem filter_flagged_pos (items : List RawReceiptItem) (i : Nat)
    (it : RawReceiptItem) (h : items[i]? = some it)
    (hf : it.needsVerification = true) :
    0 < (items.filter (·.needsVerification)).length := by
  rw [List.length_pos]
  intro hnil
  have hm : it ∈ items.filter (·.needsVerification) :=
    List.mem_filter.mpr ⟨List.getElem?_mem h, hf⟩
  rw [hnil] at hm
  exact absurd hm (List.not_mem_nil it)

/-- A successful parse determines the `total` field of the payload. -/
theorem parseResponse_total (r : String) (j : Json) (pd : ParsedReceiptData)
    (h : parseResponseE r (.ok j) = .ok pd) :
    j.getField "total" = some (.num pd.total) := by
  rw [parseResponseE_ok_iff] at h
  revert h
  simp only [parseResponseCore]
  by_cases ho : objectLike j
  · rw [if_pos ho]
    rcases hi : j.getField "items" with _ | ji
    · intro h; exact Except.noConfusion h
    · cases ji with
      | arr l =>
        rcases ht : j.getField "total" with _ | jt
        · intro h; exact Except.noConfusion h
        · cases jt with
          | num t =>
            simp only []
            by_cases htn : t < 0
            · rw [if_pos htn]; intro h; exact Except.noConfusion h
            · rw [if_neg htn]
              rcases hni : normalizeItems l 0 with e | its
              · simp only [hni]; intro h; exact Except.noConfusion h
              · simp only [hni]
                intro h
                injection h with h'
                rw [← h']
          | null => intro h; exact Except.noConfusion h
          | bool b => intro h; exact Except.noConfusion h
          | str s => intro h; exact Except.noConfusion h
          | arr l2 => intro h; exact Except.noConfusion h
          | obj f2 => intro h; exact Except.noConfusion h
      | null => intro h; exact Except.noConfusion h
      | bool b => intro h; exact Except.noConfusion h
      | num q => intro h; exact Except.noConfusion h
      | str s => intro h; exact Except.noConfusion h
      | obj f2 => intro h; exact Except.noConfusion h
  · rw [if_neg ho]; intro h; exact Except.noConfusion h

theorem extractModel_parse_ok (r : String) (parsed : Except String Json)
    (opts : Option ExtractOptions) (batch : BatchOutcome)
    (cb : Nat → String → VerificationContext → CbOutcome) (pd : ParsedReceiptData)
    (h : parseResponseE r parsed = .ok pd) :
    extractModel r parsed opts batch cb =
      .ok ({ items :=
              (callbackStage opts cb r (batchStage opts batch pd.items)).1.map toPublic,
             total := pd.total },
           (callbackStage opts cb r (batchStage opts batch pd.items)).2) := by
  unfold extractModel
  rw [h]

theorem extractModel_parse_error (r : String) (parsed : Except String Json)
    (opts : Option ExtractOptions) (batch : BatchOutcome)
    (cb : Nat → String → VerificationContext → CbOutcome) (e : String)
    (h : parseResponseE r parsed = .error e) :
    extractModel r parsed opts batch cb = .error e := by
  unfold extractModel
  rw [h]

theorem callbackStage_on (opts : Option ExtractOptions) (h : hasCallback opts = true)
    (cb : Nat → String → VerificationContext → CbOutcome) (raw : String)
    (items : List RawReceiptItem) :
    callbackStage opts cb raw items = runCbAux cb raw [] items := by
  unfold callbackStage
  rw [if_pos h]

theorem callbackStage_off (opts : Option ExtractOptions) (h : hasCallback opts = false)
    (cb : Nat → String → VerificationContext → CbOutcome) (raw : String)
    (items : List RawReceiptItem) :
    callbackStage opts cb raw items = (items, []) := by
  unfold callbackStage
  rw [if_neg (by simp [h])]

/-- C4: with both passes configured, an item the batch pass resolves (its
name mapped to a non-empty resolved name, flag cleared) is never offered to
the callback pass — no invocation-log entry carries its index — and an item
that was never flagged passes through both passes untouched (and is never
offered to the callback either). -/
theorem batch_precedence_over_callback :
    ∀ (r : String) (parsed : Except String Json) (opts : Option ExtractOptions)
      (lookup : String → Option String)
      (cb : Nat → String → VerificationContext → CbOutcome)
      (pd : ParsedReceiptData) (rd : ReceiptData) (log : List CallbackInvocation)
      (i : Nat) (it : RawReceiptItem),
      parseResponseE r parsed = .ok pd →
      hasCallback opts = true → autoVerifyEnabled opts = true →
      extractModel r parsed opts (.ok lookup) cb = .ok (rd, log) →
      pd.items[i]? = some it →
      (∀ v, it.needsVerification = true → lookup it.name = some v → v ≠ "" →
        ((batchStage opts (.ok lookup) pd.items)[i]? =
          some { it with name := v, needsVerification := false } ∧
         ∀ e ∈ log, e.idx ≠ i)) ∧
      (it.needsVerification = false →
        ((batchStage opts (.ok lookup) pd.items)[i]? = some it ∧
         rd.items[i]? = some (toPublic it) ∧
         ∀ e ∈ log, e.idx ≠ i)) := by
  intro r parsed opts lookup cb pd rd log i it hp hcb hen hex hitem
  rw [extractModel_parse_ok r parsed opts (.ok lookup) cb pd hp] at hex
  injection hex with hex'
  injection hex' with hrd hlog
  constructor
  · intro v hflag hlu hv
    have hbs : batchStage opts (.ok lookup) pd.items = applyBatchMap lookup pd.items :=
      batchStage_enabled opts lookup pd.items hen
        (filter_flagged_pos pd.items i it hitem hflag)
    have hafter : (batchStage opts (.ok lookup) pd.items)[i]? =
        some { it with name := v, needsVerification := false } := by
      rw [hbs, applyBatchMap_getElem lookup pd.items i it hitem, if_pos hflag]
      simp only [hlu]
      rw [if_pos hv]
    refine ⟨hafter, ?_⟩
    intro e he hcontra
    rw [← hlog, callbackStage_on opts hcb] at he
    rcases runCbAux_log_spec cb r (batchStage opts (.ok lookup) pd.items) [] e he with
      ⟨k, it', hidx, hk, hflag', _⟩
    have hidx' : e.idx = k := by rw [hidx]; simp
    rw [hcontra] at hidx'
    rw [← hidx'] at hk
    rw [hafter] at hk
    injection hk with hk'
    rw [← hk'] at hflag'
    simp at hflag'
  · intro hflag
    have hafter : (batchStage opts (.ok lookup) pd.items)[i]? = some it := by
      unfold batchStage
      split
      · rw [applyBatchMap_getElem lookup pd.items i it hitem,
          if_neg (by simp [hflag])]
      · exact hitem
    refine ⟨hafter, ?_, ?_⟩
    · rw [← hrd]
      show ((callbackStage opts cb r
          (batchStage opts (.ok lookup) pd.items)).1.map toPublic)[i]? =
        some (toPublic it)
      rw [callbackStage_on opts hcb, List.getElem?_map,
        runCbAux_unflagged cb r (batchStage opts (.ok lookup) pd.items) [] i it
          hafter hflag]
      rfl
    · intro e he hcontra
      rw [← hlog, callbackStage_on opts hcb] at he
      rcases runCbAux_log_spec cb r (batchStage opts (.ok lookup) pd.items) [] e he with
        ⟨k, it', hidx, hk, hflag', _⟩
      have hidx' : e.idx = k := by rw [hidx]; simp
      rw [hcontra] at hidx'
      rw [← hidx'] at hk
      rw [hafter] at hk
      injection hk with hk'
      rw [← hk'] at hflag'
      rw [hflag] at hflag'
      exact Bool.noConfusion hflag'

theorem batch_precedence_over_callback_witness :
    ((batchStage (some { verifyCallback := true, autoVerify := none })
        (.ok fun n => if n = "A" then some "Apple" else none) [c9Item])[0]? =
      some { c9Item with name := "Apple", needsVerification := false } ∧
     ∀ e ∈ ([] : List CallbackInvocation), e.idx ≠ 0) :=
  (batch_precedence_over_callback "x" (.ok c9Payload)
    (some { verifyCallback := true, autoVerify := none })
    (fun n => if n = "A" then some "Apple" else none)
    (fun _ _ _ => .err) ⟨[c9Item], 0⟩
    { items := [toPublic { c9Item with name := "Apple", needsVerification := false }],
      total := 0 }
    [] 0 c9Item rfl rfl rfl rfl rfl).1 "Apple" rfl rfl (by simp)

/-- C7: verification failures are never fatal — a parse success always yields
a successful extraction for every batch/callback behavior; a raised batch
error is equivalent to a batch lookup that resolves nothing; a per-item
callback error leaves exactly that item unchanged; every flagged item is
still visited regardless of other items' outcomes; and parse failures
propagate to the caller unchanged. -/
theorem verification_failure_isolation :
    (∀ (r : String) (parsed : Except String Json) (opts : Option ExtractOptions)
       (batch : BatchOutcome) (cb : Nat → String → VerificationContext → CbOutcome)
       (pd : ParsedReceiptData), parseResponseE r parsed = .ok pd →
       ∃ out, extractModel r parsed opts batch cb = .ok out) ∧
    (∀ (r : String) (parsed : Except String Json) (opts : Option ExtractOptions)
       (cb : Nat → String → VerificationContext → CbOutcome),
       extractModel r parsed opts .err cb =
         extractModel r parsed opts (.ok fun _ => none) cb) ∧
    (∀ (cb : Nat → String → VerificationContext → CbOutcome) (raw : String)
       (items : List RawReceiptItem) (e : CallbackInvocation) (it : RawReceiptItem),
       e ∈ (runCbAux cb raw [] items).2 → items[e.idx]? = some it →
       cb e.idx it.name e.ctx = .err →
       (runCbAux cb raw [] items).1[e.idx]? = some it) ∧
    (∀ (cb : Nat → String → VerificationContext → CbOutcome) (raw : String)
       (items : List RawReceiptItem) (i : Nat) (it : RawReceiptItem),
       items[i]? = some it → it.needsVerification = true →
       ∃ e ∈ (runCbAux cb raw [] items).2, e.idx = i) ∧
    (∀ (r : String) (parsed : Except String Json) (e : String)
       (opts : Option ExtractOptions) (batch : BatchOutcome)
       (cb : Nat → String → VerificationContext → CbOutcome),
       parseResponseE r parsed = .error e →
       extractModel r parsed opts batch cb = .error e) := by
  refine ⟨?_, ?_, ?_, ?_, ?_⟩
  · intro r parsed opts batch cb pd hp
    rw [extractModel_parse_ok r parsed opts batch cb pd hp]
    exact ⟨_, rfl⟩
  · intro r parsed opts cb
    rcases hp : parseResponseE r parsed with m | pd
    · rw [extractModel_parse_error _ _ _ _ _ _ hp,
        extractModel_parse_error _ _ _ _ _ _ hp]
    · rw [extractModel_parse_ok _ _ _ _ _ _ hp,
        extractModel_parse_ok _ _ _ _ _ _ hp, batchStage_err,
        batchStage_none_lookup]
  · intro cb raw items e it he hitem herr
    rcases runCbAux_log_spec cb raw items [] e he with
      ⟨k, it', hidx, hk, _, _, _, hval⟩
    have hidx' : e.idx = k := by rw [hidx]; simp
    rw [← hidx'] at hk hval
    rw [hitem] at hk
    injection hk with hk'
    rw [← hk'] at hval
    rw [herr] at hval
    rw [hval]
    rfl
  · intro cb raw items i it h hflag
    rcases runCbAux_flagged_logged cb raw items [] i it h hflag with ⟨e, he, hidx⟩
    exact ⟨e, he, by rw [hidx]; simp⟩
  · intro r parsed e opts batch cb hp
    exact extractModel_parse_error r parsed opts batch cb e hp

theorem verification_failure_isolation_witness :
    ∃ out, extractModel "x" (.ok c9Payload) none .err (fun _ _ _ => .err) = .ok out :=
  verification_failure_isolation.1 "x" (.ok c9Payload) none .err (fun _ _ _ => .err)
    ⟨[c9Item], 0⟩ rfl

/-- C1: the returned total is exactly the numeric `total` field of the
oracle's parsed payload, for every option set and every batch/callback
behavior — verification never changes it and it is never recomputed. -/
theorem extract_total_passthrough :
    ∀ (r : String) (parsed : Except String Json) (opts : Option ExtractOptions)
      (batch : BatchOutcome) (cb : Nat → String → VerificationContext → CbOutcome)
      (j : Json) (t : ℚ) (rd : ReceiptData) (log : List CallbackInvocation),
      parsed = .ok j → j.getField "total" = some (.num t) →
      extractModel r parsed opts batch cb = .ok (rd, log) →
      rd.total = t := by
  intro r parsed opts batch cb j t rd log hpj ht hex
  subst hpj
  rcases hp : parseResponseE r (.ok j) with m | pd
  · rw [extractModel_parse_error _ _ _ _ _ _ hp] at hex
    exact Except.noConfusion hex
  · rw [extractModel_parse_ok _ _ _ _ _ _ hp] at hex
    injection hex with hex'
    injection hex' with hrd hlog
    have htot := parseResponse_total r j pd hp
    rw [ht] at htot
    injection htot with htot'
    injection htot' with htot''
    rw [← hrd]
    exact htot''.symm

theorem extract_total_passthrough_witness :
    ({ items := [toPublic c9Item], total := 0 } : ReceiptData).total = 0 :=
  extract_total_passthrough "x" (.ok c9Payload) none (.ok fun _ => none)
    (fun _ _ _ => .err) c9Payload 0
    { items := [toPublic c9Item], total := 0 } [] rfl rfl rfl

/-- C8: the returned item list is the public field-by-field projection of the
final internal items (`needsVerification` removed); the projection round-trips
(public plus a flag rebuilds the internal item and projecting back loses
nothing but the flag), so the public form is a strict field subset and each
returned object is a fresh value copy of its internal item. -/
theorem public_projection_spec :
    (∀ (r : String) (parsed : Except String Json) (opts : Option ExtractOptions)
       (batch : BatchOutcome) (cb : Nat → String → VerificationContext → CbOutcome)
       (rd : ReceiptData) (log : List CallbackInvocation),
      extractModel r parsed opts batch cb = .ok (rd, log) →
      ∃ pd, parseResponseE r parsed = .ok pd ∧
        rd.items =
          (callbackStage opts cb r (batchStage opts batch pd.items)).1.map toPublic) ∧
    (∀ (p : ReceiptItem) (b : Bool), toPublic (publicToInternal p b) = p) ∧
    (∀ it : RawReceiptItem, it.isAttachment = none → it.attachmentType = none →
      it.attachedTo = none →
      publicToInternal (toPublic it) it.needsVerification = it) := by
  refine ⟨?_, ?_, ?_⟩
  · intro r parsed opts batch cb rd log hex
    rcases hp : parseResponseE r parsed with m | pd
    · rw [extractModel_parse_error _ _ _ _ _ _ hp] at hex
      exact Except.noConfusion hex
    · rw [extractModel_parse_ok _ _ _ _ _ _ hp] at hex
      injection hex with hex'
      injection hex' with hrd hlog
      exact ⟨pd, rfl, by rw [← hrd]⟩
  · intro p b
    rfl
  · intro it h1 h2 h3
    cases it with
    | mk name price quantity nv hasTax taxAmount deposit discount isAtt attTy attTo =>
      simp only [] at h1 h2 h3
      subst h1
      subst h2
      subst h3
      rfl

theorem public_projection_spec_witness :
    publicToInternal (toPublic sampleItem) sampleItem.needsVerification = sampleItem :=
  public_projection_spec.2.2 sampleItem rfl rfl rfl

end ReceiptOcr
